import Mathlib

/-!
Verification of the evaluation orchestration core of `examples/eval.py`
(chunking/interleaving utility, per-item generation loop, worker prediction
runner, metric aggregation engine) against its specification.

Python sequences are modelled as Lean lists, Python floats (scores, wall-clock
times, metric values) as rationals, strings as `String`, and fallible code as
`Except`/`Option`.  External collaborators (the model, the MCTS engine, the
metric libraries, the distributed backend) enter as parameters, exactly as the
specification treats them: black boxes with documented contracts.
-/

namespace DetikzifyEval

/-! ## Chunking / interleaving utility (eval.py lines 91-104) -/

/-- Embeds the Python strided slice `l[::n]` for a step `n ≥ 1`: the head, then
every `n`-th later element.  `chunk` below uses it as `l[i::n]`, i.e. applied
after dropping the first `i` elements. -/
def sliceStride {α : Type*} (n : Nat) : List α → List α
  | [] => []
  | x :: xs => x :: sliceStride n (xs.drop (n - 1))
termination_by l => l.length
decreasing_by simp; omega

/-- Embeds `chunk(l, n)` (eval.py lines 91-94), materialised as a list the way
the callers use it (`list(chunk(...))`): the `n` strided slices `l[i::n]` for
`i = 0, …, n-1`. -/
def chunk {α : Type*} (l : List α) (n : Nat) : List (List α) :=
  (List.range n).map (fun i => sliceStride n (l.drop i))

/-- One `interleaved.extend(chunk[idx] for chunk in chunks)` round of
`interleave` (eval.py line 101): collect the `idx`-th element of every chunk,
left to right, stopping at the first out-of-range access.  CPython's
`list.extend` keeps the elements the generator yielded before raising
`IndexError`, so a partial round keeps its leading elements.  The boolean
reports whether the round finished without an `IndexError`. -/
def extendRound {α : Type*} (chunks : List (List α)) (idx : Nat) : List α × Bool :=
  match chunks with
  | [] => ([], true)
  | ck :: cks =>
    match ck[idx]? with
    | none => ([], false)
    | some x =>
      let r := extendRound cks idx
      (x :: r.1, r.2)

/-- The round loop `for idx in count(): try: … except IndexError: break` of
`interleave` (eval.py lines 96-104), with explicit fuel.  On a nonempty chunk
list the Python loop raises `IndexError` after at most
(length of the shortest chunk) + 1 rounds, so the fuel supplied by
`interleave` below is never exhausted and the model agrees with the source; on
an empty chunk list the Python loop would never terminate (no access can
raise), a case no caller in the source reaches since `WORLD_SIZE ≥ 1`. -/
def interleaveRounds {α : Type*} (chunks : List (List α)) : Nat → Nat → List α
  | 0, _ => []
  | fuel + 1, idx =>
    if (extendRound chunks idx).2 then
      (extendRound chunks idx).1 ++ interleaveRounds chunks fuel (idx + 1)
    else
      (extendRound chunks idx).1

/-- Embeds `interleave(chunks)` (eval.py lines 96-104). -/
def interleave {α : Type*} (chunks : List (List α)) : List α :=
  interleaveRounds chunks ((chunks.map List.length).foldr max 0 + 1) 0

lemma sliceStride_getElem? {α : Type*} (n : Nat) (hn : 1 ≤ n) :
    ∀ (k : Nat) (l : List α), (sliceStride n l)[k]? = l[k * n]?
  | 0, [] => by simp [sliceStride]
  | 0, x :: xs => by simp [sliceStride]
  | k + 1, [] => by simp [sliceStride]
  | k + 1, x :: xs => by
    have h1 : (sliceStride n (xs.drop (n - 1)))[k]? = (xs.drop (n - 1))[k * n]? :=
      sliceStride_getElem? n hn k _
    have h2 : (k + 1) * n = (n - 1 + k * n) + 1 := by
      rw [Nat.add_mul, Nat.one_mul]
      omega
    rw [h2]
    simp only [sliceStride, List.getElem?_cons_succ]
    rw [h1, List.getElem?_drop]

lemma length_sliceStride {α : Type*} (n : Nat) (hn : 1 ≤ n) :
    ∀ l : List α, (sliceStride n l).length = (l.length + n - 1) / n
  | [] => by
    simp only [sliceStride, List.length_nil]
    exact (Nat.div_eq_of_lt (by omega)).symm
  | x :: xs => by
    have IH := length_sliceStride n hn (xs.drop (n - 1))
    simp only [sliceStride, List.length_cons, IH, List.length_drop]
    rcases le_or_lt (n - 1) xs.length with h | h
    · have h3 : xs.length - (n - 1) + n - 1 = xs.length := by omega
      have h4 : xs.length + 1 + n - 1 = xs.length + n := by omega
      rw [h3, h4, Nat.add_div_right _ (by omega)]
    · have h3 : xs.length - (n - 1) + n - 1 = n - 1 := by omega
      have h4 : xs.length + 1 + n - 1 = xs.length + n := by omega
      rw [h3, h4, Nat.div_eq_of_lt (by omega),
        Nat.div_eq_of_lt_le (by omega : 1 * n ≤ xs.length + n)
          (by omega : xs.length + n < (1 + 1) * n)]
termination_by l => l.length
decreasing_by simp; omega

lemma extendRound_chunkRange {α : Type*} (S : List α) (n idx : Nat) (hn : 1 ≤ n) :
    ∀ (b a : Nat),
      extendRound ((List.range' a b).map (fun i => sliceStride n (S.drop i))) idx
        = ((S.drop (a + idx * n)).take b,
           (b == 0) || decide (a + b + idx * n ≤ S.length))
  | 0, a => by simp [extendRound]
  | b + 1, a => by
    have hrs : List.range' a (b + 1) = a :: List.range' (a + 1) b := List.range'_succ a b 1
    have hget : (sliceStride n (S.drop a))[idx]? = S[a + idx * n]? := by
      rw [sliceStride_getElem? n hn, List.getElem?_drop]
    rw [hrs, List.map_cons]
    rcases lt_or_ge (a + idx * n) S.length with hlt | hge
    · have hsome : S[a + idx * n]? = some S[a + idx * n] := List.getElem?_eq_getElem hlt
      have IH := extendRound_chunkRange S n idx hn b (a + 1)
      simp only [extendRound, hget, hsome, IH]
      refine Prod.ext ?_ ?_
      · show S[a + idx * n] :: (S.drop (a + 1 + idx * n)).take b
          = (S.drop (a + idx * n)).take (b + 1)
        have hidx : a + 1 + idx * n = a + idx * n + 1 := by omega
        rw [hidx, List.drop_eq_getElem_cons hlt, List.take_succ_cons]
      · show ((b == 0) || decide (a + 1 + b + idx * n ≤ S.length))
          = ((b + 1 == 0) || decide (a + (b + 1) + idx * n ≤ S.length))
        cases b with
        | zero =>
          have hle : a + (0 + 1) + idx * n ≤ S.length := by omega
          simp [hle]
        | succ m =>
          have hiff : (a + 1 + (m + 1) + idx * n ≤ S.length)
              ↔ (a + (m + 1 + 1) + idx * n ≤ S.length) := by omega
          simp [hiff]
    · have hnone : S[a + idx * n]? = none := List.getElem?_eq_none hge
      simp only [extendRound, hget, hnone]
      have hdrop : S.drop (a + idx * n) = [] := List.drop_eq_nil_of_le hge
      have hflag : ¬ (a + (b + 1) + idx * n ≤ S.length) := by omega
      simp [hdrop, hflag]

lemma extendRound_chunk {α : Type*} (S : List α) (n idx : Nat) (hn : 1 ≤ n) :
    extendRound (chunk S n) idx
      = ((S.drop (idx * n)).take n, (n == 0) || decide (n + idx * n ≤ S.length)) := by
  rw [chunk, List.range_eq_range', extendRound_chunkRange S n idx hn n 0]
  simp

lemma extendRound_chunk_fst {α : Type*} (S : List α) (n idx : Nat) (hn : 1 ≤ n) :
    (extendRound (chunk S n) idx).1 = (S.drop (idx * n)).take n := by
  rw [extendRound_chunk S n idx hn]

lemma extendRound_chunk_snd {α : Type*} (S : List α) (n idx : Nat) (hn : 1 ≤ n) :
    (extendRound (chunk S n) idx).2 = decide (n + idx * n ≤ S.length) := by
  rw [extendRound_chunk S n idx hn]
  have hn0 : (n == 0) = false := by simp; omega
  simp [hn0]

lemma interleaveRounds_chunk {α : Type*} (S : List α) (n : Nat) (hn : 1 ≤ n) :
    ∀ (fuel idx : Nat), S.length / n < idx + fuel →
      interleaveRounds (chunk S n) fuel idx = S.drop (idx * n)
  | 0, idx, h => by
    have hmod := Nat.div_add_mod S.length n
    have hltn : S.length % n < n := Nat.mod_lt _ (by omega)
    have h2 : (S.length / n + 1) * n ≤ idx * n := Nat.mul_le_mul_right n (by omega)
    have h3 : (S.length / n + 1) * n = n * (S.length / n) + n := by ring
    have h4 : S.length ≤ idx * n := by omega
    simp [interleaveRounds, List.drop_eq_nil_of_le h4]
  | fuel + 1, idx, h => by
    rcases le_or_lt (n + idx * n) S.length with hle | hlt
    · have hdiv : idx + 1 ≤ S.length / n := by
        rw [Nat.le_div_iff_mul_le (by omega)]
        have h5 : (idx + 1) * n = n + idx * n := by ring
        omega
      have IH := interleaveRounds_chunk S n hn fuel (idx + 1) (by omega)
      have hmul : (idx + 1) * n = idx * n + n := by ring
      have hdd : List.drop n (List.drop (idx * n) S) = List.drop ((idx + 1) * n) S := by
        rw [List.drop_drop, hmul]
      rw [interleaveRounds, extendRound_chunk_snd S n idx hn, decide_eq_true hle,
        if_pos rfl, extendRound_chunk_fst S n idx hn, IH, ← hdd, List.take_append_drop]
    · have hflag : ¬ (n + idx * n ≤ S.length) := by omega
      rw [interleaveRounds, extendRound_chunk_snd S n idx hn, decide_eq_false hflag,
        if_neg (by simp), extendRound_chunk_fst S n idx hn]
      refine List.take_of_length_le ?_
      simp only [List.length_drop]
      omega

lemma le_foldr_max (l : List Nat) (x : Nat) (hx : x ∈ l) : x ≤ l.foldr max 0 := by
  induction l with
  | nil => simp at hx
  | cons y ys ih =>
    rcases List.mem_cons.mp hx with h | h
    · subst h; exact le_max_left _ _
    · exact le_trans (ih h) (le_max_right _ _)

lemma interleave_chunk_eq {α : Type*} (S : List α) (n : Nat) (hn : 1 ≤ n) :
    interleave (chunk S n) = S := by
  have hmem : sliceStride n (S.drop 0) ∈ chunk S n := by
    rw [chunk]
    exact List.mem_map.mpr ⟨0, List.mem_range.mpr (by omega), rfl⟩
  have hlen : S.length / n ≤ (sliceStride n (S.drop 0)).length := by
    rw [length_sliceStride n hn, List.length_drop]
    exact Nat.div_le_div_right (by omega)
  have hmax : (sliceStride n (S.drop 0)).length
      ≤ ((chunk S n).map List.length).foldr max 0 :=
    le_foldr_max _ _ (List.mem_map_of_mem _ hmem)
  rw [interleave]
  have hrounds := interleaveRounds_chunk S n hn
    (((chunk S n).map List.length).foldr max 0 + 1) 0 (by omega)
  simpa using hrounds

lemma chunk_length_antitone {α : Type*} (S : List α) (n : Nat) (hn : 1 ≤ n) :
    ((chunk S n).map List.length).Pairwise (fun a b => b ≤ a) := by
  rw [chunk, List.map_map]
  refine List.Pairwise.map _ ?_ (List.pairwise_lt_range n)
  intro i j hij
  simp only [Function.comp_apply, length_sliceStride n hn, List.length_drop]
  exact Nat.div_le_div_right (by omega)

/-- C1: for every sequence `S` and every `n ≥ 1` with `len(S) mod n == 0`,
`interleave` applied to the `n` chunks produced by `chunk(S, n)` reconstructs
exactly the original sequence `S`. -/
theorem chunk_interleave_roundtrip_divisible {α : Type*} (S : List α) (n : Nat)
    (hn : 1 ≤ n) (hmod : S.length % n = 0) :
    interleave (chunk S n) = S :=
  interleave_chunk_eq S n hn

theorem chunk_interleave_roundtrip_divisible_witness :
    1 ≤ 2 ∧ ([0, 1, 2, 3] : List ℕ).length % 2 = 0 ∧
      interleave (chunk ([0, 1, 2, 3] : List ℕ) 2) = [0, 1, 2, 3] :=
  ⟨by norm_num, by norm_num,
    chunk_interleave_roundtrip_divisible [0, 1, 2, 3] 2 (by norm_num) (by norm_num)⟩

/-- C10: for every finite sequence `S` and every `n ≥ 1` — also when
`len(S) mod n ≠ 0` — `interleave` applied to `chunk(S, n)` returns exactly `S`:
the strided chunks place the longer chunks first (their lengths are
non-increasing), and the partial final round keeps the elements appended
before the first out-of-range access, so no trailing item is dropped. -/
theorem chunk_interleave_roundtrip_total {α : Type*} (S : List α) (n : Nat)
    (hn : 1 ≤ n) :
    ((chunk S n).map List.length).Pairwise (fun a b => b ≤ a) ∧
      interleave (chunk S n) = S :=
  ⟨chunk_length_antitone S n hn, interleave_chunk_eq S n hn⟩

theorem chunk_interleave_roundtrip_total_witness :
    1 ≤ 2 ∧
      (((chunk ([0, 1, 2, 3, 4] : List ℕ) 2).map List.length).Pairwise
          (fun a b => b ≤ a) ∧
        interleave (chunk ([0, 1, 2, 3, 4] : List ℕ) 2) = [0, 1, 2, 3, 4]) :=
  ⟨by norm_num, chunk_interleave_roundtrip_total [0, 1, 2, 3, 4] 2 (by norm_num)⟩

/-! ## Per-item generation loop `generate` (eval.py lines 106-115) -/

/-- Generated artifact (the `TikzDocument` of `detikzify.infer`, consumed as a
black box, spec section 3): wraps the generated source code and exposes the
compilation flags the evaluation loop reads.  Python set membership
deduplicates by value equality of the pair, modelled by structural equality. -/
structure TikzDocument where
  code : String
  compiled_with_errors : Bool
  is_rasterizable : Bool
deriving DecidableEq, Repr

/-- One step of the lazy `pipe.simulate(...)` stream as the `generate` loop
observes it: the yielded `(score, tikzpic)` pair together with the wall-clock
value that `time()` returns at that iteration's timeout check (line 113).
Python float scores and times are modelled as rationals. -/
structure GenStep where
  score : ℚ
  tikzpic : TikzDocument
  now : ℚ
deriving DecidableEq, Repr

/-- The success criterion of eval.py line 111, with Python conditional
expression precedence:
`(not tikzpic.compiled_with_errors) if strict else tikzpic.is_rasterizable`. -/
def successOf (strict : Bool) (d : TikzDocument) : Bool :=
  if strict then !d.compiled_with_errors else d.is_rasterizable

/-- The stop check of eval.py line 113: `not timeout or time() - start >= timeout`.
`not timeout` is true when no timeout was given and also when `timeout == 0`
(Python falsiness of the number zero). -/
def stopCond (timeout : Option ℚ) (start now : ℚ) : Bool :=
  match timeout with
  | none => true
  | some t => decide (t = 0) || decide (t ≤ now - start)

/-- The prefix of the simulate stream that the `generate` loop consumes before
its `break` (or the whole stream when it is exhausted first), given the value
`b` of the `success` flag accumulated so far.  The breaking step itself has
already been added to the result set when the loop stops, so the consumed
prefix includes it. -/
def consumedSteps (strict : Bool) (timeout : Option ℚ) (start : ℚ) :
    Bool → List GenStep → List GenStep
  | _, [] => []
  | b, s :: rest =>
    if (b || successOf strict s.tikzpic) && stopCond timeout start s.now then [s]
    else s :: consumedSteps strict timeout start (b || successOf strict s.tikzpic) rest

/-- Ordering used by `sorted(tikzpics, key=itemgetter(0))`: compare pairs by
score only. -/
def scoreLE (p q : ℚ × TikzDocument) : Prop := p.1 ≤ q.1

instance : DecidableRel scoreLE := fun p q => inferInstanceAs (Decidable (p.1 ≤ q.1))

instance : IsTotal (ℚ × TikzDocument) scoreLE := ⟨fun p q => le_total p.1 q.1⟩

instance : IsTrans (ℚ × TikzDocument) scoreLE := ⟨fun _ _ _ h h2 => le_trans h h2⟩

/-- Embeds `generate` (eval.py lines 106-115) as a function of the observed
stream: the loop's set `tikzpics` ends up holding exactly the distinct
`(score, tikzpic)` pairs of the consumed prefix, which
`sorted(..., key=itemgetter(0))` orders ascending by score (Python set
iteration order is arbitrary, so any score-sorted arrangement of the set is a
faithful model of the output order) before the scores are dropped. -/
def generate (strict : Bool) (timeout : Option ℚ) (start : ℚ)
    (steps : List GenStep) : List TikzDocument :=
  ((((consumedSteps strict timeout start false steps).map
      (fun s => (s.score, s.tikzpic))).dedup).insertionSort scoreLE).map Prod.snd

/-- `successIn strict P`: some artifact of `P` meets the success criterion —
the value of the loop's `success` flag after consuming `P` starting from
`success = False`. -/
def successIn (strict : Bool) (steps : List GenStep) : Bool :=
  steps.any (fun s => successOf strict s.tikzpic)

/-- The claim's stop criterion, in the spec's words: no timeout was specified,
or the elapsed wall-clock time since loop start has reached the timeout. -/
def specStop (timeout : Option ℚ) (start now : ℚ) : Bool :=
  match timeout with
  | none => true
  | some t => decide (t ≤ now - start)

/-- Spec-side stop predicate: after consuming prefix `P` (with success flag
`b` inherited from before `P`), the loop should stop exactly when success has
been achieved within the prefix and the claim's stop criterion holds at the
wall-clock time of the prefix's final step. -/
def specShouldStop (strict : Bool) (timeout : Option ℚ) (start : ℚ)
    (b : Bool) (P : List GenStep) : Bool :=
  match P.getLast? with
  | none => false
  | some s => (b || successIn strict P) && specStop timeout start s.now

lemma stopCond_eq_specStop (timeout : Option ℚ) (start now : ℚ) (h : start ≤ now) :
    stopCond timeout start now = specStop timeout start now := by
  cases timeout with
  | none => rfl
  | some t =>
    by_cases ht : t = 0
    · subst ht
      simp only [stopCond, specStop]
      have h0 : (0 : ℚ) ≤ now - start := by linarith
      simp [h0]
    · simp [stopCond, specStop, ht]

lemma successIn_singleton (strict : Bool) (s : GenStep) :
    successIn strict [s] = successOf strict s.tikzpic := by
  simp [successIn]

lemma specShouldStop_cons (strict : Bool) (timeout : Option ℚ) (start : ℚ)
    (b : Bool) (s : GenStep) (Q : List GenStep) (hQ : Q ≠ []) :
    specShouldStop strict timeout start b (s :: Q)
      = specShouldStop strict timeout start (b || successOf strict s.tikzpic) Q := by
  obtain ⟨q, Q', rfl⟩ := List.exists_cons_of_ne_nil hQ
  simp [specShouldStop, successIn, Bool.or_assoc]

lemma consumedSteps_policy (strict : Bool) (timeout : Option ℚ) (start : ℚ) :
    ∀ (steps : List GenStep) (b : Bool), (∀ s ∈ steps, start ≤ s.now) →
      (consumedSteps strict timeout start b steps <+: steps) ∧
      (∀ P, P <+: consumedSteps strict timeout start b steps →
          P ≠ consumedSteps strict timeout start b steps →
          specShouldStop strict timeout start b P = false) ∧
      (specShouldStop strict timeout start b
            (consumedSteps strict timeout start b steps) = true ∨
        consumedSteps strict timeout start b steps = steps)
  | [], b, _ => by
    refine ⟨List.nil_prefix, ?_, Or.inr rfl⟩
    intro P hP hne
    rw [consumedSteps] at hP hne
    exact absurd (List.prefix_nil.mp hP) hne
  | s :: rest, b, h => by
    have hs : start ≤ s.now := h s (List.mem_cons_self s rest)
    have hrest : ∀ x ∈ rest, start ≤ x.now := fun x hx => h x (List.mem_cons_of_mem s hx)
    have hsingle : specShouldStop strict timeout start b [s]
        = ((b || successOf strict s.tikzpic) && stopCond timeout start s.now) := by
      simp only [specShouldStop, List.getLast?_singleton, successIn_singleton]
      rw [stopCond_eq_specStop timeout start s.now hs]
    cases hstop : ((b || successOf strict s.tikzpic) && stopCond timeout start s.now) with
    | true =>
      rw [show consumedSteps strict timeout start b (s :: rest)
          = if (b || successOf strict s.tikzpic) && stopCond timeout start s.now
            then [s]
            else s :: consumedSteps strict timeout start
              (b || successOf strict s.tikzpic) rest from rfl,
        hstop, if_pos rfl]
      refine ⟨⟨rest, rfl⟩, ?_, Or.inl (by rw [hsingle, hstop])⟩
      intro P hP hne
      cases P with
      | nil => rfl
      | cons p ps =>
        rcases hP with ⟨t, ht⟩
        rw [List.cons_append] at ht
        injection ht with h1 h2
        subst h1
        have hps : ps = [] := List.append_eq_nil.mp h2 |>.1
        subst hps
        exact absurd rfl hne
    | false =>
      rw [show consumedSteps strict timeout start b (s :: rest)
          = if (b || successOf strict s.tikzpic) && stopCond timeout start s.now
            then [s]
            else s :: consumedSteps strict timeout start
              (b || successOf strict s.tikzpic) rest from rfl,
        hstop, if_neg (by simp)]
      obtain ⟨IH1, IH2, IH3⟩ :=
        consumedSteps_policy strict timeout start rest (b || successOf strict s.tikzpic) hrest
      refine ⟨?_, ?_, ?_⟩
      · rcases IH1 with ⟨t, ht⟩
        exact ⟨t, by rw [List.cons_append, ht]⟩
      · intro P hP hne
        cases P with
        | nil => rfl
        | cons p ps =>
          rcases hP with ⟨t, ht⟩
          rw [List.cons_append] at ht
          injection ht with h1 h2
          subst h1
          have hps : ps <+: consumedSteps strict timeout start
              (b || successOf strict p.tikzpic) rest := ⟨t, h2⟩
          have hne2 : ps ≠ consumedSteps strict timeout start
              (b || successOf strict p.tikzpic) rest := by
            intro heq
            exact hne (by rw [heq])
          by_cases hq : ps = []
          · subst hq
            rw [hsingle]
            exact hstop
          · rw [specShouldStop_cons strict timeout start b p ps hq]
            exact IH2 ps hps hne2
      · rcases IH3 with hspec | heq
        · left
          have hne' : consumedSteps strict timeout start
              (b || successOf strict s.tikzpic) rest ≠ [] := by
            intro h0
            rw [h0] at hspec
            simp [specShouldStop] at hspec
          rw [specShouldStop_cons strict timeout start b s _ hne']
          exact hspec
        · right
          rw [heq]

/-- C2: the `generate` loop stops consuming exactly at the first point where
success has been achieved and (no timeout was specified or the elapsed
wall-clock time since loop start has reached the timeout); it never stops
before success unless the stream is exhausted, and with no timeout it stops
at the first success.  The hypothesis states that the wall clock never runs
backwards past the loop's start time. -/
theorem generate_termination_policy (strict : Bool) (timeout : Option ℚ)
    (start : ℚ) (steps : List GenStep) (h : ∀ s ∈ steps, start ≤ s.now) :
    (consumedSteps strict timeout start false steps <+: steps) ∧
    (∀ P, P <+: consumedSteps strict timeout start false steps →
        P ≠ consumedSteps strict timeout start false steps →
        specShouldStop strict timeout start false P = false) ∧
    (specShouldStop strict timeout start false
          (consumedSteps strict timeout start false steps) = true ∨
      consumedSteps strict timeout start false steps = steps) ∧
    (consumedSteps strict timeout start false steps ≠ steps →
      successIn strict (consumedSteps strict timeout start false steps) = true) ∧
    (timeout = none →
      ∀ P, P <+: consumedSteps strict timeout start false steps →
        P ≠ consumedSteps strict timeout start false steps →
        successIn strict P = false) := by
  obtain ⟨h1, h2, h3⟩ := consumedSteps_policy strict timeout start steps false h
  refine ⟨h1, h2, h3, ?_, ?_⟩
  · intro hne
    rcases h3 with hspec | heq
    · cases hC : (consumedSteps strict timeout start false steps).getLast? with
      | none => simp [specShouldStop, hC] at hspec
      | some sl =>
        simp only [specShouldStop, hC, Bool.false_or, Bool.and_eq_true] at hspec
        exact hspec.1
    · exact absurd heq hne
  · intro htout P hP hne
    have hss := h2 P hP hne
    subst htout
    cases P with
    | nil => rfl
    | cons p ps =>
      obtain ⟨q, hq⟩ := Option.isSome_iff_exists.mp
        (List.getLast?_isSome.mpr (List.cons_ne_nil p ps))
      simp only [specShouldStop, hq, Bool.false_or, specStop, Bool.and_true] at hss
      exact hss

lemma consumedSteps_cons (strict : Bool) (timeout : Option ℚ) (start : ℚ)
    (b : Bool) (s : GenStep) (rest : List GenStep) :
    consumedSteps strict timeout start b (s :: rest)
      = if (b || successOf strict s.tikzpic) && stopCond timeout start s.now then [s]
        else s :: consumedSteps strict timeout start
          (b || successOf strict s.tikzpic) rest := rfl

lemma consumedSteps_cons_ne_nil (strict : Bool) (timeout : Option ℚ) (start : ℚ)
    (b : Bool) (s : GenStep) (rest : List GenStep) :
    consumedSteps strict timeout start b (s :: rest) ≠ [] := by
  rw [consumedSteps_cons]
  split <;> simp

lemma successOf_eq_true_iff (strict : Bool) (d : TikzDocument) :
    successOf strict d = true ↔
      (strict = true ∧ d.compiled_with_errors = false) ∨
        (strict = false ∧ d.is_rasterizable = true) := by
  cases strict <;> simp [successOf]

/-- Non-rasterizable, error-free artifact used in the concrete runs below. -/
def docA : TikzDocument := ⟨"a", false, false⟩

/-- Rasterizable artifact used in the concrete runs below. -/
def docB : TikzDocument := ⟨"b", false, true⟩

/-- Concrete simulate stream: a high-scoring non-rasterizable artifact first,
then a lower-scoring rasterizable one (clock constant at the loop start). -/
def stepsHiFail : List GenStep := [⟨5, docA, 0⟩, ⟨3, docB, 0⟩]

theorem generate_termination_policy_witness :
    (∀ s ∈ stepsHiFail, (0 : ℚ) ≤ s.now) ∧
    ((consumedSteps false none 0 false stepsHiFail <+: stepsHiFail) ∧
      (∀ P, P <+: consumedSteps false none 0 false stepsHiFail →
          P ≠ consumedSteps false none 0 false stepsHiFail →
          specShouldStop false none 0 false P = false) ∧
      (specShouldStop false none 0 false
            (consumedSteps false none 0 false stepsHiFail) = true ∨
        consumedSteps false none 0 false stepsHiFail = stepsHiFail) ∧
      (consumedSteps false none 0 false stepsHiFail ≠ stepsHiFail →
        successIn false (consumedSteps false none 0 false stepsHiFail) = true) ∧
      ((none : Option ℚ) = none →
        ∀ P, P <+: consumedSteps false none 0 false stepsHiFail →
          P ≠ consumedSteps false none 0 false stepsHiFail →
          successIn false P = false)) := by
  have hnow : ∀ s ∈ stepsHiFail, (0 : ℚ) ≤ s.now := by
    intro s hs
    simp only [stepsHiFail, List.mem_cons, List.not_mem_nil, or_false] at hs
    rcases hs with rfl | rfl <;> norm_num
  exact ⟨hnow, generate_termination_policy false none 0 stepsHiFail hnow⟩

/-- C5: in `generate`, an artifact triggers success exactly when it is
rasterizable if `strict = false`, and exactly when it compiled without errors
if `strict = true`: with no timeout the loop consumes only the first stream
element iff that element's artifact meets the criterion for the given
`strict`. -/
theorem generate_success_criterion (strict : Bool) (d : TikzDocument)
    (sc now start : ℚ) (s2 : GenStep) (rest : List GenStep) :
    consumedSteps strict none start false (⟨sc, d, now⟩ :: s2 :: rest)
        = [⟨sc, d, now⟩] ↔
      (strict = true ∧ d.compiled_with_errors = false) ∨
        (strict = false ∧ d.is_rasterizable = true) := by
  rw [← successOf_eq_true_iff strict d, consumedSteps_cons]
  cases hsd : successOf strict d with
  | true => simp [hsd, stopCond]
  | false => simp [hsd, stopCond, consumedSteps_cons_ne_nil]

/-- C6: the value returned by `generate` is the set of all `(score, artifact)`
pairs observed during the loop, deduplicated by value equality of the pair,
arranged ascending by score, with the scores discarded so only the artifacts
remain in that order. -/
theorem generate_result_sorted_dedup (strict : Bool) (timeout : Option ℚ)
    (start : ℚ) (steps : List GenStep) :
    ∃ l : List (ℚ × TikzDocument),
      l.Perm (((consumedSteps strict timeout start false steps).map
          (fun s => (s.score, s.tikzpic))).dedup) ∧
      l.Pairwise (fun p q => p.1 ≤ q.1) ∧
      generate strict timeout start steps = l.map Prod.snd :=
  ⟨_, List.perm_insertionSort scoreLE _,
    List.Pairwise.imp (fun h => h) (List.sorted_insertionSort scoreLE _), rfl⟩

/-- C4 counterexample: a `generate` run (strict = false, no timeout) in which
success occurred, yet the last artifact of the returned batch — the final
element of the score-ascending list — is not rasterizable: success was
triggered by the lower-scoring artifact and sorting places the failing
higher-scoring artifact last. -/
theorem generate_last_artifact_cex :
    successIn false (consumedSteps false none 0 false stepsHiFail) = true ∧
    (generate false none 0 stepsHiFail).getLast? = some docA ∧
    docA.is_rasterizable = false := by
  refine ⟨?_, ?_, rfl⟩
  · norm_num [successIn, consumedSteps, stepsHiFail, successOf, stopCond, docA, docB]
  · have hpairs : (consumedSteps false none 0 false stepsHiFail).map
        (fun s => (s.score, s.tikzpic)) = [((5 : ℚ), docA), ((3 : ℚ), docB)] := by
      norm_num [consumedSteps, stepsHiFail, successOf, stopCond, docA, docB]
    have hnodup : (([((5 : ℚ), docA), ((3 : ℚ), docB)]) :
        List (ℚ × TikzDocument)).Nodup := by
      norm_num [docA, docB]
    rw [generate, hpairs, List.dedup_eq_self.mpr hnodup]
    norm_num [List.insertionSort, List.orderedInsert, scoreLE, docA, docB]

/-- C4 amended: every batch produced by `generate` in which success occurred
contains at least one artifact satisfying the success criterion used during
generation; the batch is sorted by score, so the successful artifact need not
be the last element. -/
theorem generate_batch_contains_success (strict : Bool) (timeout : Option ℚ)
    (start : ℚ) (steps : List GenStep)
    (h : successIn strict (consumedSteps strict timeout start false steps) = true) :
    ∃ d ∈ generate strict timeout start steps,
      (strict = true ∧ d.compiled_with_errors = false) ∨
        (strict = false ∧ d.is_rasterizable = true) := by
  rw [successIn, List.any_eq_true] at h
  obtain ⟨s, hs, hcrit⟩ := h
  refine ⟨s.tikzpic, ?_, (successOf_eq_true_iff strict s.tikzpic).mp hcrit⟩
  rw [generate]
  refine List.mem_map.mpr ⟨(s.score, s.tikzpic), ?_, rfl⟩
  have hmem : (s.score, s.tikzpic) ∈ ((consumedSteps strict timeout start false
      steps).map (fun x => (x.score, x.tikzpic))).dedup :=
    List.mem_dedup.mpr (List.mem_map_of_mem _ hs)
  exact ((List.perm_insertionSort scoreLE _).mem_iff).mpr hmem

theorem generate_batch_contains_success_witness :
    successIn false (consumedSteps false none 0 false stepsHiFail) = true ∧
    ∃ d ∈ generate false none 0 stepsHiFail,
      ((false : Bool) = true ∧ d.compiled_with_errors = false) ∨
        ((false : Bool) = false ∧ d.is_rasterizable = true) := by
  have hsucc : successIn false (consumedSteps false none 0 false stepsHiFail) = true := by
    norm_num [successIn, consumedSteps, stepsHiFail, successOf, stopCond, docA, docB]
  exact ⟨hsucc, generate_batch_contains_success false none 0 stepsHiFail hsucc⟩

/-! ## Worker prediction runner `predict` (eval.py lines 117-155) -/

/-- Observable effects of the guaranteed-cleanup tail of `predict`, in
execution order. -/
inductive PredictEvent where
  | allGather
  | extendPredictions
  | writeCache
deriving DecidableEq, Repr

/-- Result of one worker's `predict` run.  `predictions` is the worker's
`predictions` list after the `finally` block ran, `cacheWritten` the JSON
payload written to the cache file (rank 0 with a configured cache path only),
and `raised` the exception re-raised after the `finally` block when the
generation phase raised one. -/
structure PredictRun (ε : Type) where
  trace : List PredictEvent
  workerPreds : List (List TikzDocument)
  predictions : List (List TikzDocument)
  cacheWritten : Option (List (List String))
  raised : Option ε

/-- The `for item in worker_chunk: … worker_preds.append(tikz)` loop of
`predict` (eval.py lines 145-147).  Per-item generation is the black-box
`gen`; an exception aborts the remaining iterations and keeps the results
appended before it. -/
def generateItems {ι ε : Type} (gen : ι → Except ε (List TikzDocument)) :
    List ι → List (List TikzDocument) × Option ε
  | [] => ([], none)
  | it :: rest =>
    match gen it with
    | Except.error e => ([], some e)
    | Except.ok tikz =>
      let r := generateItems gen rest
      (tikz :: r.1, r.2)

/-- Embeds `predict` (eval.py lines 117-155) from the point where model,
tokenizer and pipeline are loaded (external collaborators, spec section 4.3).
`cached` is the Prediction Batch list deserialised from the cache file (empty
when none exists), `gen` the per-item generation, and `allGather` the
distributed `dist.all_gather_object` as a function of this worker's local
result list, returning one slot per rank in rank order.  The `try/finally` of
lines 142-154 makes the gather, the interleaved reassembly and the rank-0
cache write execute even when generation raised; the exception is re-raised
afterwards, so the caller receives `predictions` only when `raised = none`. -/
def predict {ι ε : Type} (cached : List (List TikzDocument)) (testset : List ι)
    (gen : ι → Except ε (List TikzDocument)) (world rank : Nat)
    (hasCacheFile : Bool)
    (allGather : List (List TikzDocument) → List (List (List TikzDocument))) :
    PredictRun ε :=
  let workerChunk := (chunk (testset.drop cached.length) world).getD rank []
  let gl := generateItems gen workerChunk
  let gathered := allGather gl.1
  let preds := cached ++ interleave gathered
  { trace := [PredictEvent.allGather, PredictEvent.extendPredictions]
      ++ (if hasCacheFile && rank == 0 then [PredictEvent.writeCache] else []),
    workerPreds := gl.1,
    predictions := preds,
    cacheWritten := if hasCacheFile && rank == 0
      then some (preds.map (fun ps => ps.map TikzDocument.code)) else none,
    raised := gl.2 }

/-- C3: if the generation phase of `predict` raises an exception for some
item, the distributed all-gather of per-worker result lists, the interleaved
reassembly, and — on rank 0 when a cache path is configured — the cache-file
write still execute, and the exception then propagates out of `predict`. -/
theorem predict_gather_runs_on_failure {ι ε : Type}
    (cached : List (List TikzDocument)) (testset : List ι)
    (gen : ι → Except ε (List TikzDocument)) (world rank : Nat)
    (hasCacheFile : Bool)
    (allGather : List (List TikzDocument) → List (List (List TikzDocument)))
    (e : ε)
    (h : (generateItems gen
        ((chunk (testset.drop cached.length) world).getD rank [])).2 = some e) :
    PredictEvent.allGather
        ∈ (predict cached testset gen world rank hasCacheFile allGather).trace ∧
    PredictEvent.extendPredictions
        ∈ (predict cached testset gen world rank hasCacheFile allGather).trace ∧
    ((predict cached testset gen world rank hasCacheFile allGather).predictions
        = cached ++ interleave (allGather
            (predict cached testset gen world rank hasCacheFile allGather).workerPreds)) ∧
    (hasCacheFile = true → rank = 0 →
      PredictEvent.writeCache
          ∈ (predict cached testset gen world rank hasCacheFile allGather).trace ∧
      (predict cached testset gen world rank hasCacheFile allGather).cacheWritten
        = some ((predict cached testset gen world rank hasCacheFile
            allGather).predictions.map (fun ps => ps.map TikzDocument.code))) ∧
    (predict cached testset gen world rank hasCacheFile allGather).raised = some e := by
  refine ⟨by simp [predict], by simp [predict], by simp [predict], ?_,
    by simp only [predict]; exact h⟩
  intro hc hr
  subst hr
  subst hc
  exact ⟨by simp [predict], by simp [predict]⟩

theorem predict_gather_runs_on_failure_witness :
    (generateItems (fun _ => Except.error () : Unit → Except Unit (List TikzDocument))
        ((chunk (([()] : List Unit).drop ([] : List (List TikzDocument)).length) 1).getD 0 [])).2
      = some () ∧
    (PredictEvent.allGather
        ∈ (predict [] [()] (fun _ => Except.error ()) 1 0 true (fun l => [l])).trace ∧
      PredictEvent.extendPredictions
        ∈ (predict [] [()] (fun _ => Except.error ()) 1 0 true (fun l => [l])).trace ∧
      ((predict [] [()] (fun _ => Except.error ()) 1 0 true (fun l => [l])).predictions
        = [] ++ interleave ((fun l => [l])
            (predict [] [()] (fun _ => Except.error ()) 1 0 true (fun l => [l])).workerPreds)) ∧
      (true = true → 0 = 0 →
        PredictEvent.writeCache
          ∈ (predict [] [()] (fun _ => Except.error ()) 1 0 true (fun l => [l])).trace ∧
        (predict [] [()] (fun _ => Except.error ()) 1 0 true (fun l => [l])).cacheWritten
          = some ((predict [] [()] (fun _ => Except.error ()) 1 0 true
              (fun l => [l])).predictions.map (fun ps => ps.map TikzDocument.code))) ∧
      (predict [] [()] (fun _ => Except.error ()) 1 0 true (fun l => [l])).raised
        = some ()) := by
  have h : (generateItems
      (fun _ => Except.error () : Unit → Except Unit (List TikzDocument))
      ((chunk (([()] : List Unit).drop ([] : List (List TikzDocument)).length) 1).getD 0 [])).2
      = some () := by
    simp [generateItems, chunk, sliceStride]
  exact ⟨h, predict_gather_runs_on_failure [] [()] (fun _ => Except.error ()) 1 0 true
    (fun l => [l]) () h⟩

/-- Error-free per-item generation, wrapped for `predict`'s fallible
interface. -/
def genOk {ι : Type} (g : ι → List TikzDocument) (it : ι) :
    Except Unit (List TikzDocument) :=
  Except.ok (g it)

lemma generateItems_ok {ι : Type} (g : ι → List TikzDocument) :
    ∀ l : List ι, generateItems (genOk g) l = (l.map g, none)
  | [] => rfl
  | it :: rest => by
    simp only [generateItems, genOk, List.map_cons, generateItems_ok g rest]

lemma range_map_getD {β : Type*} (l : List β) (d : β) :
    (List.range l.length).map (fun i => l.getD i d) = l := by
  refine List.ext_getElem (by simp) ?_
  intro i h1 h2
  simp only [List.getElem_map, List.getElem_range]
  exact List.getD_eq_getElem l d h2

lemma sliceStride_map {α β : Type*} (f : α → β) (n : Nat) :
    ∀ l : List α, sliceStride n (l.map f) = (sliceStride n l).map f
  | [] => by simp [sliceStride]
  | x :: xs => by
    simp only [List.map_cons, sliceStride]
    rw [← List.map_drop, sliceStride_map f n (xs.drop (n - 1))]
termination_by l => l.length
decreasing_by simp; omega

lemma chunk_map {α β : Type*} (f : α → β) (l : List α) (n : Nat) :
    chunk (l.map f) n = (chunk l n).map (List.map f) := by
  simp only [chunk, List.map_map]
  refine List.map_congr_left ?_
  intro i _
  simp only [Function.comp_apply]
  rw [← List.map_drop, sliceStride_map]

/-- C7: when `predict` resumes from an existing cache of `k` entries, exactly
the first `k` dataset items are skipped, the newly generated results are
appended after the `k` cached entries (positionally aligned with the
remaining dataset, in dataset order), the cached entries keep their original
positions and order, and no exception propagates.  `g` is error-free
generation and the gather argument the true cross-worker gather: slot `r`
holds rank `r`'s chunk results. -/
theorem predict_resume_appends {ι : Type}
    (cached : List (List TikzDocument)) (testset : List ι)
    (g : ι → List TikzDocument) (world rank : Nat) (hasCacheFile : Bool)
    (hw : 1 ≤ world) (hr : rank < world) :
    ((predict cached testset (genOk g) world rank hasCacheFile
        (fun _ => (List.range world).map
          (fun r => ((chunk (testset.drop cached.length) world).getD r
            []).map g))).predictions.take cached.length = cached) ∧
    ((predict cached testset (genOk g) world rank hasCacheFile
        (fun _ => (List.range world).map
          (fun r => ((chunk (testset.drop cached.length) world).getD r
            []).map g))).predictions.drop cached.length
        = (testset.drop cached.length).map g) ∧
    (predict cached testset (genOk g) world rank hasCacheFile
        (fun _ => (List.range world).map
          (fun r => ((chunk (testset.drop cached.length) world).getD r
            []).map g))).raised = none := by
  have hgathered : (List.range world).map
      (fun r => ((chunk (testset.drop cached.length) world).getD r []).map g)
      = chunk ((testset.drop cached.length).map g) world := by
    have hlen : (chunk (testset.drop cached.length) world).length = world := by
      simp [chunk]
    rw [chunk_map]
    refine List.ext_getElem (by simp [hlen]) ?_
    intro i h1 h2
    have hi : i < (chunk (testset.drop cached.length) world).length := by
      simpa using h2
    simp only [List.getElem_map, List.getElem_range]
    rw [List.getD_eq_getElem _ [] hi]
  have hinter : interleave ((List.range world).map
      (fun r => ((chunk (testset.drop cached.length) world).getD r []).map g))
      = (testset.drop cached.length).map g := by
    rw [hgathered, interleave_chunk_eq _ world hw]
  refine ⟨?_, ?_, ?_⟩
  · simp only [predict, generateItems_ok, hinter]
    exact List.take_left cached _
  · simp only [predict, generateItems_ok, hinter]
    exact List.drop_left cached _
  · simp [predict, generateItems_ok]

theorem predict_resume_appends_witness :
    1 ≤ 1 ∧ 0 < 1 ∧
    (((predict [[docA]] [(), ()] (genOk (fun _ => [docB])) 1 0 true
        (fun _ => (List.range 1).map
          (fun r => ((chunk (([(), ()] : List Unit).drop
            ([[docA]] : List (List TikzDocument)).length) 1).getD r
            []).map (fun _ => [docB])))).predictions.take
          ([[docA]] : List (List TikzDocument)).length = [[docA]]) ∧
      ((predict [[docA]] [(), ()] (genOk (fun _ => [docB])) 1 0 true
        (fun _ => (List.range 1).map
          (fun r => ((chunk (([(), ()] : List Unit).drop
            ([[docA]] : List (List TikzDocument)).length) 1).getD r
            []).map (fun _ => [docB])))).predictions.drop
          ([[docA]] : List (List TikzDocument)).length
          = (([(), ()] : List Unit).drop
              ([[docA]] : List (List TikzDocument)).length).map (fun _ => [docB])) ∧
      (predict [[docA]] [(), ()] (genOk (fun _ => [docB])) 1 0 true
        (fun _ => (List.range 1).map
          (fun r => ((chunk (([(), ()] : List Unit).drop
            ([[docA]] : List (List TikzDocument)).length) 1).getD r
            []).map (fun _ => [docB])))).raised = none) :=
  ⟨by norm_num, by norm_num,
    predict_resume_appends [[docA]] [(), ()] (fun _ => [docB]) 1 0 true
      (by norm_num) (by norm_num)⟩

/-! ## Metric aggregation engine `load_metrics` / `compute` (eval.py lines 157-199) -/

/-- Arithmetic mean of a list of rationals (`numpy` `.mean()`; the empty case
is outside every use in the source). -/
def listMean (xs : List ℚ) : ℚ := xs.sum / xs.length

/-- Embeds `scipy.stats.mstats.winsorize(a, limits=limit)` with the default
inclusive bounds, as used by both structural statistics: a scalar limit
applies symmetrically; with `n = len(a)`, the lowest `int(limit*n)` values are
replaced by the `int(limit*n)`-th smallest and symmetrically at the top
(`int` truncation equals the floor for the non-negative limits used here).
The scipy routine overwrites values in place at positions selected through
`argsort`; this model works on the ascending sorted arrangement, which has
the same multiset of values and therefore the same mean, the only consumer. -/
def winsorize (limit : ℚ) (xs : List ℚ) : List ℚ :=
  let n := xs.length
  let s := xs.insertionSort (· ≤ ·)
  let lowidx := (⌊limit * (n : ℚ)⌋).toNat
  let upidx := n - lowidx
  List.replicate lowidx (s.getD lowidx 0)
    ++ ((s.drop lowidx).take (upidx - lowidx))
    ++ List.replicate (n - upidx) (s.getD (upidx - 1) 0)

/-- Default artifact used only to express `preds[-1]` on candidate lists
already known nonempty (Python raises `IndexError` on an empty one; `compute`
checks that case first, matching line 175). -/
def defaultDoc : TikzDocument := ⟨"", false, false⟩

/-- The per-item ratio of `mean_token_efficiency` (eval.py line 168):
`len(preds[-1].code) / sum(len(pred.code) for pred in preds)`. -/
def tokenShare (preds : List TikzDocument) : ℚ :=
  ((preds.getLastD defaultDoc).code.length : ℚ)
    / ((preds.map (fun p => p.code.length)).sum : ℚ)

/-- Embeds `mean_token_efficiency` (eval.py lines 165-169); the caller uses
the default `limit=0.05`.  Python would raise `ZeroDivisionError` on an item
whose summed code length is zero; rational division by zero yields 0 here, a
case outside every claim. -/
def mean_token_efficiency (limit : ℚ) (predictions : List (List TikzDocument)) : ℚ :=
  listMean (winsorize limit (predictions.map tokenShare))

/-- Embeds `mean_sampling_throughput` (eval.py lines 171-172). -/
def mean_sampling_throughput (limit : ℚ) (predictions : List (List TikzDocument)) : ℚ :=
  listMean (winsorize limit (predictions.map (fun preds => (preds.length : ℚ))))

/-- The two failure modes of the `compute` closure that this file's arithmetic
can reach. -/
inductive ComputeError where
  | indexError
  | assertionError
deriving DecidableEq, Repr

/-- Embeds the `compute(references, predictions)` closure (eval.py lines
174-197) up to its structural statistic.  `pred[-1]` in the `pred_code`
comprehension (line 175) raises `IndexError` when some prediction has no
candidates; the line 177 `assert all(pred[-1].is_rasterizable for pred in
predictions)` raises `AssertionError` when some final artifact is not
rasterizable; otherwise the scores mapping is assembled, of which the only
entry computed by this file's own arithmetic is the structural statistic
selected by `measure_throughput` with the default `limit=0.05` — the
metric-library entries are external collaborators (spec sections 1 and 4.4),
and `TikzDocument.rasterize` (absent from src, line 176) returns the raster
without raising, per the spec contract that `is_rasterizable` reports whether
compilation produced a raster image. -/
def compute {R : Type} (measure_throughput : Bool) (references : List R)
    (predictions : List (List TikzDocument)) : Except ComputeError ℚ :=
  if predictions.any List.isEmpty then Except.error ComputeError.indexError
  else if predictions.all (fun pred => (pred.getLastD defaultDoc).is_rasterizable) then
    Except.ok (if measure_throughput then mean_sampling_throughput (1/20) predictions
      else mean_token_efficiency (1/20) predictions)
  else Except.error ComputeError.assertionError

lemma getLast?_eq_getLastD {p : List TikzDocument} (hp : p ≠ []) :
    p.getLast? = some (p.getLastD defaultDoc) := by
  obtain ⟨d, hd⟩ := Option.isSome_iff_exists.mp (List.getLast?_isSome.mpr hp)
  rw [List.getLastD_eq_getLast?, hd]
  rfl

/-- C8: the `compute` closure fails with a hard assertion failure exactly when
some prediction's final artifact is not rasterizable; under the precondition
that every final artifact is rasterizable the assertion never fires and
scoring proceeds.  The hypothesis `hne` rules out empty candidate lists, on
which line 175 would already raise `IndexError` before the assertion. -/
theorem compute_rasterizable_assertion {R : Type} (measure_throughput : Bool)
    (references : List R) (predictions : List (List TikzDocument))
    (hne : ∀ p ∈ predictions, p ≠ []) :
    (compute measure_throughput references predictions
        = Except.error ComputeError.assertionError ↔
      ∃ p ∈ predictions, ∃ d, p.getLast? = some d ∧ d.is_rasterizable = false) ∧
    ((∀ p ∈ predictions, ∀ d, p.getLast? = some d → d.is_rasterizable = true) →
      compute measure_throughput references predictions
        = Except.ok (if measure_throughput
            then mean_sampling_throughput (1/20) predictions
            else mean_token_efficiency (1/20) predictions)) := by
  have hany : predictions.any List.isEmpty = false := by
    simp only [List.any_eq_false]
    intro p hp
    simpa using hne p hp
  have hunfold : compute measure_throughput references predictions
      = if predictions.all (fun pred => (pred.getLastD defaultDoc).is_rasterizable)
        then Except.ok (if measure_throughput
            then mean_sampling_throughput (1/20) predictions
            else mean_token_efficiency (1/20) predictions)
        else Except.error ComputeError.assertionError := by
    unfold compute
    rw [hany]
    simp
  constructor
  · cases hall : predictions.all
        (fun pred => (pred.getLastD defaultDoc).is_rasterizable) with
    | true =>
      rw [hunfold, hall, if_pos rfl]
      constructor
      · intro hcontra
        exact absurd hcontra (by simp)
      · rintro ⟨p, hp, d, hd, hfalse⟩
        have := List.all_eq_true.mp hall p hp
        rw [getLast?_eq_getLastD (hne p hp)] at hd
        injection hd with hd
        rw [hd] at this
        rw [this] at hfalse
        exact absurd hfalse (by simp)
    | false =>
      rw [hunfold, hall, if_neg (by simp)]
      constructor
      · intro _
        obtain ⟨p, hp, hfail⟩ := List.all_eq_false.mp hall
        refine ⟨p, hp, p.getLastD defaultDoc, getLast?_eq_getLastD (hne p hp), ?_⟩
        simpa using hfail
      · intro _
        rfl
  · intro hras
    have hall : predictions.all
        (fun pred => (pred.getLastD defaultDoc).is_rasterizable) = true := by
      rw [List.all_eq_true]
      intro p hp
      exact hras p hp (p.getLastD defaultDoc) (getLast?_eq_getLastD (hne p hp))
    rw [hunfold, hall, if_pos rfl]

theorem compute_rasterizable_assertion_witness :
    (∀ p ∈ ([[docB]] : List (List TikzDocument)), p ≠ []) ∧
    ((compute false ([] : List Unit) [[docB]]
          = Except.error ComputeError.assertionError ↔
        ∃ p ∈ ([[docB]] : List (List TikzDocument)), ∃ d, p.getLast? = some d ∧
          d.is_rasterizable = false) ∧
      ((∀ p ∈ ([[docB]] : List (List TikzDocument)), ∀ d, p.getLast? = some d →
          d.is_rasterizable = true) →
        compute false ([] : List Unit) [[docB]]
          = Except.ok (if false then mean_sampling_throughput (1/20) [[docB]]
              else mean_token_efficiency (1/20) [[docB]]))) := by
  have hne : ∀ p ∈ ([[docB]] : List (List TikzDocument)), p ≠ [] := by
    intro p hp
    simp only [List.mem_singleton] at hp
    subst hp
    simp
  exact ⟨hne, compute_rasterizable_assertion false [] [[docB]] hne⟩

lemma winsorize_length_three (xs : List ℚ) (h3 : xs.length = 3) :
    winsorize (1/20) xs = xs.insertionSort (· ≤ ·) := by
  have hcast : ((xs.length : ℚ)) = 3 := by rw [h3]; norm_num
  have hfloor : (⌊(1/20 : ℚ) * (xs.length : ℚ)⌋).toNat = 0 := by
    rw [hcast]
    norm_num
  have hslen : (xs.insertionSort (· ≤ ·)).length = 3 := by
    rw [List.length_insertionSort, h3]
  simp only [winsorize, h3]
  norm_num
  omega

lemma listMean_insertionSort (xs : List ℚ) :
    listMean (xs.insertionSort (· ≤ ·)) = listMean xs := by
  have hperm := List.perm_insertionSort (fun a b : ℚ => a ≤ b) xs
  rw [listMean, listMean, hperm.sum_eq, hperm.length_eq]

/-- C9 amended: when `measure_throughput` is false, the structural statistic
reported by `compute` equals the winsorized mean, with symmetric 5% limits,
of the per-item ratios (final artifact code length over summed candidate code
lengths); for a batch of 3 items `int(0.05*3) = 0` values are replaced at
each end, so the statistic equals the plain arithmetic mean of the three
ratios — nothing is pulled toward the middle value. -/
theorem compute_token_efficiency_spec {R : Type} (references : List R)
    (predictions : List (List TikzDocument))
    (hne : ∀ p ∈ predictions, p ≠ [])
    (hras : ∀ p ∈ predictions, (p.getLastD defaultDoc).is_rasterizable = true) :
    compute false references predictions
        = Except.ok (listMean (winsorize (1/20) (predictions.map tokenShare))) ∧
    (predictions.length = 3 →
      compute false references predictions
        = Except.ok (listMean (predictions.map tokenShare))) := by
  have hany : predictions.any List.isEmpty = false := by
    simp only [List.any_eq_false]
    intro p hp
    simpa using hne p hp
  have hall : predictions.all
      (fun pred => (pred.getLastD defaultDoc).is_rasterizable) = true := by
    rw [List.all_eq_true]
    exact hras
  have hcomp : compute false references predictions
      = Except.ok (mean_token_efficiency (1/20) predictions) := by
    unfold compute
    rw [hany, hall]
    simp
  refine ⟨by rw [hcomp]; rfl, ?_⟩
  intro hlen3
  rw [hcomp]
  rw [show mean_token_efficiency (1/20) predictions
      = listMean (winsorize (1/20) (predictions.map tokenShare)) from rfl]
  rw [winsorize_length_three _ (by rw [List.length_map, hlen3]),
    listMean_insertionSort]

/-- First item of the 3-item counterexample batch: code lengths 9 then 1, so
the token-efficiency ratio is 1/10. -/
def exPredA : List TikzDocument :=
  [⟨"aaaaaaaaa", false, true⟩, ⟨"b", false, true⟩]

/-- Second item: code lengths 8 then 2, ratio 2/10. -/
def exPredB : List TikzDocument :=
  [⟨"aaaaaaaa", false, true⟩, ⟨"bb", false, true⟩]

/-- Third item: code lengths 1 then 9, ratio 9/10. -/
def exPredC : List TikzDocument :=
  [⟨"a", false, true⟩, ⟨"bbbbbbbbb", false, true⟩]

/-- The 3-item batch with token-efficiency ratios `[0.1, 0.2, 0.9]`. -/
def exBatch : List (List TikzDocument) := [exPredA, exPredB, exPredC]

/-- C9 counterexample: on a 3-item batch with ratios `[0.1, 0.2, 0.9]`,
`winsorize` with symmetric 5% limits replaces nothing — `int(0.05*3) = 0` —
so the statistic reported by `compute` is the plain mean `0.4 = 2/5`; `0.9`
survives unmodified and is not pulled toward `0.2` before averaging (any such
pull would make the result smaller than `2/5`). -/
theorem winsorize_no_trim_at_three_cex :
    compute false ([] : List Unit) exBatch = Except.ok (2/5) ∧
    winsorize (1/20) [1/10, 2/10, 9/10] = [1/10, 2/10, 9/10] ∧
    exBatch.map tokenShare = [1/10, 2/10, 9/10] := by
  have hshare : exBatch.map tokenShare = [1/10, 2/10, 9/10] := by
    have l9a : ("aaaaaaaaa" : String).length = 9 := rfl
    have l1b : ("b" : String).length = 1 := rfl
    have l8a : ("aaaaaaaa" : String).length = 8 := rfl
    have l2b : ("bb" : String).length = 2 := rfl
    have l1a : ("a" : String).length = 1 := rfl
    have l9b : ("bbbbbbbbb" : String).length = 9 := rfl
    norm_num [exBatch, exPredA, exPredB, exPredC, tokenShare, defaultDoc,
      l9a, l1b, l8a, l2b, l1a, l9b]
  have hwin : winsorize (1/20) ([1/10, 2/10, 9/10] : List ℚ)
      = [1/10, 2/10, 9/10] := by
    norm_num [winsorize, List.insertionSort, List.orderedInsert]
  refine ⟨?_, hwin, hshare⟩
  have hcomp : compute false ([] : List Unit) exBatch
      = Except.ok (mean_token_efficiency (1/20) exBatch) := by
    norm_num [compute, exBatch, exPredA, exPredB, exPredC, defaultDoc]
  rw [hcomp, show mean_token_efficiency (1/20) exBatch
      = listMean (winsorize (1/20) (exBatch.map tokenShare)) from rfl, hshare, hwin]
  norm_num [listMean]

theorem compute_token_efficiency_spec_witness :
    (∀ p ∈ exBatch, p ≠ []) ∧
    (∀ p ∈ exBatch, (p.getLastD defaultDoc).is_rasterizable = true) ∧
    (compute false ([] : List Unit) exBatch
        = Except.ok (listMean (winsorize (1/20) (exBatch.map tokenShare))) ∧
      (exBatch.length = 3 →
        compute false ([] : List Unit) exBatch
          = Except.ok (listMean (exBatch.map tokenShare)))) := by
  have hne : ∀ p ∈ exBatch, p ≠ [] := by
    intro p hp
    simp only [exBatch, List.mem_cons, List.not_mem_nil, or_false] at hp
    rcases hp with rfl | rfl | rfl <;> simp [exPredA, exPredB, exPredC]
  have hras : ∀ p ∈ exBatch, (p.getLastD defaultDoc).is_rasterizable = true := by
    intro p hp
    simp only [exBatch, List.mem_cons, List.not_mem_nil, or_false] at hp
    rcases hp with rfl | rfl | rfl <;> rfl
  exact ⟨hne, hras, compute_token_efficiency_spec ([] : List Unit) exBatch hne hras⟩

end DetikzifyEval
